import Mathlib

/-!
Verification of the scam-report hub core.

Shallow embedding of the report lifecycle / moderation engine of the
`scamlist` repository (FastAPI app `app/main.py` + `app/models.py`, and the
legacy Streamlit app `legacy_streamlit_app.py`), with theorems settling the
specification claims about visibility filtering, moderation transitions,
audit logging, link extraction and timestamp handling.

Conventions of the embedding:
* the database is a plain list of rows; `insert` is `++ [row]`, a keyed
  `get` is `List.find?` on the primary key, and an `UPDATE ... WHERE id = x`
  maps the row with that id;
* instants (`DateTime` columns, `datetime.utcnow()`) are `Int` seconds since
  the Unix epoch; naive local date-times are likewise `Int` seconds read as
  wall-clock values;
* Python `Optional` values are `Option`; SQL `NULL` text columns are
  `Option String`, and an `ILIKE` applied to `NULL` is false, as in SQL;
* only ASCII text is considered (all inputs in the repository's scenarios
  are ASCII), so Python's `str.lower`, `\s` and the URL regex character
  classes coincide with their ASCII readings used here.
-/

/-! ## SQL LIKE / ILIKE

`search_page` and `admin_page` filter with `column.ilike(f"%{q}%")`:
case-insensitive SQL `LIKE`, where `%` matches any sequence and `_` any
single character. -/

/-- SQL `LIKE` pattern matching on exploded strings: `%` matches any
sequence of characters, `_` any single character, anything else itself. -/
def likeMatch : List Char → List Char → Bool
  | [], [] => true
  | [], _ :: _ => false
  | '%' :: ps, [] => likeMatch ps []
  | '%' :: ps, c :: s => likeMatch ps (c :: s) || likeMatch ('%' :: ps) s
  | '_' :: _, [] => false
  | '_' :: ps, _ :: s => likeMatch ps s
  | _ :: _, [] => false
  | p :: ps, c :: s => (p == c) && likeMatch ps s
termination_by p s => (p.length, s.length)

/-- Case-insensitive `ILIKE` of a nullable SQL text column against a
pattern; a `NULL` column never matches (SQL three-valued logic collapses
to false under the surrounding `OR`/`AND`). -/
def ilike (col : Option String) (pat : String) : Bool :=
  match col with
  | none => false
  | some s => likeMatch pat.toLower.toList s.toLower.toList

/-! ## Data model (`app/models.py`, unified with the legacy schema)

`Report` carries every column of the FastAPI `reports` table
(`app/models.py`) plus `deleted_on`, which `admin_action` assigns and the
legacy schema stores. -/

structure Report where
  id : Nat
  report_type : String
  source_from : Option String
  subject : Option String
  message_content : String
  received_at : Option Int
  reporter_name : Option String
  reporter_contact : Option String
  suggested_classification : String
  classification : String
  classified_by : Option String
  classified_on : Option Int
  is_verified : Bool
  verified_by : Option String
  verified_on : Option Int
  is_flagged : Bool
  flag_reason : Option String
  flagged_on : Option Int
  flagged_by : Option String
  created_on : Int
  updated_on : Int
  deleted : Bool
  deleted_on : Option Int
deriving DecidableEq, Repr

/-- A report with the column defaults of `app/models.py` (classification
defaults `"unclassified"`, all flags false, optional fields absent). -/
def mkReport (id : Nat) (report_type : String) (message_content : String)
    (created_on : Int) : Report :=
  { id := id
    report_type := report_type
    source_from := none
    subject := none
    message_content := message_content
    received_at := none
    reporter_name := none
    reporter_contact := none
    suggested_classification := "unclassified"
    classification := "unclassified"
    classified_by := none
    classified_on := none
    is_verified := false
    verified_by := none
    verified_on := none
    is_flagged := false
    flag_reason := none
    flagged_on := none
    flagged_by := none
    created_on := created_on
    updated_on := created_on
    deleted := false
    deleted_on := none }

/-- Attachment row (`app/models.py`). -/
structure Attachment where
  id : Nat
  report_id : Nat
  original_name : String
  storage_path : String
  mime_type : Option String
  size_bytes : Nat
  created_on : Int
  deleted : Bool
deriving DecidableEq, Repr

/-- Audit row of the legacy `report_audit` table
(`legacy_streamlit_app.py`). -/
structure AuditEntry where
  report_id : Nat
  performed_by : Option Nat
  action : String
  comment : String
  created_on : Int
  deleted : Bool
deriving DecidableEq, Repr

/-- Extracted-link row of the legacy `report_links` table. -/
structure Link where
  report_id : Nat
  url : String
  domain : String
  safety : Option String
  created_on : Int
  updated_on : Int
  deleted : Bool
deriving DecidableEq, Repr

/-- HTTP-level outcome of a handler, as far as the core logic decides it:
a redirect (`RedirectResponse(url, status_code)`), a served file
(`FileResponse`), or a rendered page. -/
inductive HandlerResult where
  | redirect (url : String) (code : Nat)
  | fileOut (path : String) (name : String) (mime : String)
  | page
deriving DecidableEq, Repr

/-! ## Query/filter engine (`search_page` and `admin_page`, `app/main.py`)

The SQL pipeline `WHERE … ORDER BY created_on DESC LIMIT … OFFSET …`
becomes `filter`, then `mergeSort` with the `created_on`-descending
comparator, then `drop`/`take`. -/

/-- Comparator of `ORDER BY created_on DESC`. -/
def createdDesc (a b : Report) : Bool :=
  b.created_on ≤ a.created_on

/-- Text condition of `search_page`: applied only when `q` is truthy, and
then `message_content ILIKE '%q%' OR source_from ILIKE '%q%' OR subject
ILIKE '%q%'`. -/
def textCond (q : Option String) (r : Report) : Bool :=
  match q with
  | none => true
  | some s =>
    if s = "" then true
    else
      let pat := "%" ++ s ++ "%"
      ilike (some r.message_content) pat || ilike r.source_from pat ||
        ilike r.subject pat

/-- Type condition of `search_page`: applied only when `report_type` is
truthy and different from `"all"`. -/
def typeCond (t : Option String) (r : Report) : Bool :=
  match t with
  | none => true
  | some s => if s = "" ∨ s = "all" then true else r.report_type == s

/-- Row predicate of the public search query: always restricted to
`deleted IS FALSE AND is_flagged IS FALSE`, plus the optional type and
text conditions. -/
def publicPred (q t : Option String) (r : Report) : Bool :=
  !r.deleted && !r.is_flagged && typeCond t r && textCond q r

/-- Embedding of `search_page` (`app/main.py:42`): public search over the report table.
Filter, order by `created_on` descending, `LIMIT 200`. -/
def search_page (db : List Report) (q t : Option String) : List Report :=
  ((db.filter (publicPred q t)).mergeSort createdDesc).take 200

/-- Row predicate assembled by `admin_page` from its `status`,
`show_deleted` and `q` parameters. -/
def adminPred (status : String) (show_deleted : Nat) (q : String)
    (r : Report) : Bool :=
  (show_deleted != 0 || !r.deleted) &&
    (if status = "flagged" then r.is_flagged
     else if status = "unflagged" then !r.is_flagged
     else true) &&
    (if q = "" then true
     else
       let pat := "%" ++ q ++ "%"
       ilike (some r.message_content) pat || ilike r.source_from pat ||
         ilike r.subject pat)

/-- Result of the admin listing: the page of rows, the total row count
under the same filters, and the page count. -/
structure AdminView where
  rows : List Report
  total : Nat
  total_pages : Nat
deriving DecidableEq, Repr

/-- Embedding of `admin_page` (`app/main.py:156`): filtered count, then the same filter
ordered by `created_on` descending with `LIMIT 25 OFFSET (page-1)*25`,
and `total_pages = max(ceil(total/25), 1)`. `page` is clamped to at least
1 first. -/
def admin_page (db : List Report) (status : String) (show_deleted : Nat)
    (q : String) (page : Int) : AdminView :=
  let page_size : Nat := 25
  let pg : Nat := (max page 1).toNat
  let matching := db.filter (adminPred status show_deleted q)
  let total := matching.length
  let rows :=
    ((matching.mergeSort createdDesc).drop ((pg - 1) * page_size)).take
      page_size
  { rows := rows
    total := total
    total_pages := max ((total + page_size - 1) / page_size) 1 }

/-- Embedding of `download_attachment` (`app/main.py:256`): serve the stored file only
when the attachment exists and is non-deleted and its parent report
exists, is non-deleted and is not flagged; otherwise redirect to `/`. -/
def download_attachment (rdb : List Report) (adb : List Attachment)
    (attachment_id : Nat) : HandlerResult :=
  match adb.find? (fun a => a.id == attachment_id) with
  | none => .redirect "/" 303
  | some att =>
    if att.deleted then .redirect "/" 303
    else
      match rdb.find? (fun r => r.id == att.report_id) with
      | none => .redirect "/" 303
      | some report =>
        if report.deleted || report.is_flagged then .redirect "/" 303
        else
          .fileOut att.storage_path att.original_name
            (att.mime_type.getD "application/octet-stream")

/-! ## Moderation (`admin_action`, `app/main.py:225`) and the legacy
audit handler (`legacy_streamlit_app.py:327`)

The moderation state is the report table together with the (legacy-schema)
`report_audit` table; `admin_action` touches only the report table. -/

structure ModState where
  reports : List Report
  audit : List AuditEntry
deriving DecidableEq, Repr

/-- Lookup `db.get(Report, report_id)` by primary key. -/
def dbGetReport (db : List Report) (rid : Nat) : Option Report :=
  db.find? (fun r => r.id == rid)

/-- Update `UPDATE reports SET … WHERE id = rid`, as the session flush of the
mutated instance. Also bumps `updated_on` (`onupdate=func.now()`). -/
def dbUpdateReport (db : List Report) (rid : Nat) (r' : Report) :
    List Report :=
  db.map (fun r => if r.id == rid then r' else r)

/-- Embedding of `admin_action` (`app/main.py:225`): on a missing or deleted report,
redirect to `/admin` without touching anything; otherwise apply the
`flag`/`unflag`/`delete` field updates (an unknown action changes
nothing), commit, and redirect to `/admin`. No audit entry is written
anywhere in this handler. -/
def admin_action (st : ModState) (report_id : Nat)
    (action reason admin_user : String) (now : Int) :
    ModState × HandlerResult :=
  match dbGetReport st.reports report_id with
  | none => (st, .redirect "/admin" 303)
  | some report =>
    if report.deleted then (st, .redirect "/admin" 303)
    else
      let updated : Option Report :=
        if action = "flag" then
          some { report with
                  is_flagged := true
                  flag_reason :=
                    some (if reason = "" then "flagged by admin" else reason)
                  flagged_on := some now
                  flagged_by := some admin_user
                  updated_on := now }
        else if action = "unflag" then
          some { report with
                  is_flagged := false
                  flag_reason := none
                  flagged_on := none
                  flagged_by := none
                  updated_on := now }
        else if action = "delete" then
          some { report with
                  deleted := true
                  deleted_on := some now
                  updated_on := now }
        else none
      match updated with
      | none => (st, .redirect "/admin" 303)
      | some r' =>
        ({ st with reports := dbUpdateReport st.reports report_id r' },
          .redirect "/admin" 303)

/-- Audit branch of the legacy "Attachment & Audit" submit handler
(`legacy_streamlit_app.py:327`): when the chosen action is not `"none"`,
insert one `report_audit` row, and for `"delete"` additionally run
`UPDATE reports SET deleted=true, deleted_on=now, updated_on=now WHERE
id=report_id` — in a separate statement and with no guard on the report's
current `deleted` state. -/
def legacy_audit_submit (st : ModState) (report_id : Nat)
    (performed_by : Option Nat) (action comment : String) (now : Int) :
    ModState :=
  if action = "none" then st
  else
    let st1 : ModState :=
      { st with
          audit := st.audit ++
            [{ report_id := report_id
               performed_by := performed_by
               action := action
               comment := comment
               created_on := now
               deleted := false }] }
    if action = "delete" then
      { st1 with
          reports := st1.reports.map (fun r =>
            if r.id == report_id then
              { r with deleted := true, deleted_on := some now,
                       updated_on := now }
            else r) }
    else st1

/-! ## Report submission (`submit_report`, `app/main.py:93`) -/

/-- Embedding of `submit_report` (`app/main.py:93`): parse the `received_at` form field
with `datetime.fromisoformat`, treating an empty string as absent and a
`ValueError` as `None`; store empty optional strings as absent; insert the
report; redirect to `/` with 303. `parseIso` stands for
`datetime.fromisoformat`, returning `none` exactly when it raises. -/
def submit_report (db : List Report) (nextId : Nat)
    (report_type source_from subject message_content received_at
      reporter_name reporter_contact : String)
    (parseIso : String → Option Int) (now : Int) :
    List Report × HandlerResult :=
  let parsed : Option Int :=
    if received_at = "" then none else parseIso received_at
  let report : Report :=
    { mkReport nextId report_type message_content now with
        source_from := if source_from = "" then none else some source_from
        subject := if subject = "" then none else some subject
        received_at := parsed
        reporter_name :=
          if reporter_name = "" then none else some reporter_name
        reporter_contact :=
          if reporter_contact = "" then none else some reporter_contact }
  (db ++ [report], .redirect "/" 303)

/-! ## Link extraction (`legacy_streamlit_app.py:364` and `:374`)

`extract_urls` runs `re.findall` with the pattern

    https?://[^\s<>"'\)\]]+|(?:www\.)?[a-zA-Z0-9.-]+\.[a-z]{2,}(?:/[^\s]*)?

The model below implements exactly this pattern with Python `re`
semantics on ASCII text: leftmost scanning, the first alternative tried
first, greedy quantifiers with backtracking, non-overlapping matches. -/

/-- Python `\s` on ASCII text. -/
def isPySpace (c : Char) : Bool :=
  c = ' ' || c = '\t' || c = '\n' || c = '\r' || c = '\x0b' || c = '\x0c'

/-- Body class of the first alternative: `[^\s<>"'\)\]]`. The excluded
apostrophe is written by its ASCII code point 39. -/
def isUrlBodyChar (c : Char) : Bool :=
  !(isPySpace c || c = '<' || c = '>' || c = '"' || c = Char.ofNat 39 ||
    c = ')' || c = ']')

/-- Character class `[a-zA-Z0-9.-]` of the bare-domain alternative. -/
def isDomChar (c : Char) : Bool :=
  c.isAlpha || c.isDigit || c = '.' || c = '-'

/-- First alternative `https?://[^\s<>"'\)\]]+`: a literal scheme, then a
maximal non-empty run of body characters (the run is final in the
pattern, so greediness needs no backtracking). Returns the matched token
and the remaining input. -/
def matchSchemeUrl (l : List Char) : Option (List Char × List Char) :=
  match l with
  | 'h' :: 't' :: 't' :: 'p' :: rest =>
    let after : Option (List Char × List Char) :=
      match rest with
      | 's' :: ':' :: '/' :: '/' :: r => some (['s', ':', '/', '/'], r)
      | ':' :: '/' :: '/' :: r => some ([':', '/', '/'], r)
      | _ => none
    match after with
    | none => none
    | some (mid, r) =>
      let body := r.takeWhile isUrlBodyChar
      if body.isEmpty then none
      else some ('h' :: 't' :: 't' :: 'p' :: mid ++ body,
        r.drop body.length)
  | _ => none

/-- Backtracking of the greedy `[a-zA-Z0-9.-]+` in the bare-domain
alternative: the label part is `l.take p` for `p` descending from the
maximal class run; each `p` requires a literal `.` next, then a maximal
run of at least two `[a-z]`, then an optional `/`-path of non-space
characters. The first (longest-label) success wins, as in a backtracking
engine. -/
def bareDomainAt (l : List Char) : Nat → Option (List Char × List Char)
  | 0 => none
  | p + 1 =>
    let lbl := p + 1
    if l.get? lbl = some '.' then
      let afterDot := l.drop (lbl + 1)
      let tld := afterDot.takeWhile Char.isLower
      if 2 ≤ tld.length then
        let rest1 := afterDot.drop tld.length
        let (path, rest2) : List Char × List Char :=
          match rest1 with
          | '/' :: r =>
            let seg := r.takeWhile (fun c => !isPySpace c)
            ('/' :: seg, r.drop seg.length)
          | r => ([], r)
        some (l.take lbl ++ '.' :: tld ++ path, rest2)
      else bareDomainAt l p
    else bareDomainAt l p

/-- Core of the second alternative without the optional `www.`:
`[a-zA-Z0-9.-]+\.[a-z]{2,}(?:/[^\s]*)?`. -/
def matchBareDomain (l : List Char) : Option (List Char × List Char) :=
  let run := l.takeWhile isDomChar
  if run.isEmpty then none else bareDomainAt l run.length

/-- Second alternative `(?:www\.)?[a-zA-Z0-9.-]+\.[a-z]{2,}(?:/[^\s]*)?`:
the optional `www.` is greedy, so it is consumed first and released only
if the remainder fails. -/
def matchDomainUrl (l : List Char) : Option (List Char × List Char) :=
  match l with
  | 'w' :: 'w' :: 'w' :: '.' :: rest =>
    match matchBareDomain rest with
    | some (tok, r) => some ('w' :: 'w' :: 'w' :: '.' :: tok, r)
    | none => matchBareDomain l
  | _ => matchBareDomain l

/-- One attempt of the full pattern at the current position: first
alternative, then second. -/
def matchUrlAt (l : List Char) : Option (List Char × List Char) :=
  match matchSchemeUrl l with
  | some res => some res
  | none => matchDomainUrl l

/-- Scanning of `re.findall`: try the pattern at each position from the left;
on a match, emit it and continue after it, otherwise advance one
character. Every match consumes at least one character, so the input
length bounds the number of steps. -/
def findallUrls : Nat → List Char → List String
  | 0, _ => []
  | _, [] => []
  | fuel + 1, l =>
    match matchUrlAt l with
    | some (tok, rest) => String.mk tok :: findallUrls fuel rest
    | none => findallUrls fuel l.tail

/-- Embedding of `extract_urls` (`legacy_streamlit_app.py:364`): empty/absent text gives
no candidates, otherwise the regex scan. -/
def extract_urls (text : String) : List String :=
  if text = "" then [] else findallUrls text.toList.length text.toList

/-! ### `urlparse(url).netloc` (Python `urllib.parse`)

`urlparse` strips a leading `scheme:` only when the part before the first
`:` is a valid scheme (a letter followed by letters, digits, `+`, `-`,
`.`); it then reads a network location only when the remainder starts
with `//`, taking characters up to the next `/`, `?` or `#`. -/

/-- Split at the first `:`; `none` when the string has no colon. -/
def splitOnColon : List Char → Option (List Char × List Char)
  | [] => none
  | ':' :: r => some ([], r)
  | c :: r => (splitOnColon r).map (fun p => (c :: p.1, p.2))

/-- Valid URL scheme per `urllib.parse`. -/
def validScheme : List Char → Bool
  | [] => false
  | c :: rest =>
    c.isAlpha &&
      rest.all (fun x => x.isAlpha || x.isDigit || x = '+' || x = '-' ||
        x = '.')

/-- Model of `urlparse(url).netloc`. -/
def urlparseNetloc (url : String) : String :=
  let cs := url.toList
  let rest :=
    match splitOnColon cs with
    | some (sch, r) => if validScheme sch then r else cs
    | none => cs
  match rest with
  | '/' :: '/' :: r =>
    String.mk (r.takeWhile (fun c => !(c = '/' || c = '?' || c = '#')))
  | _ => ""

/-- Model of `urlparse(url).netloc or url`: the stored `domain` column. -/
def domainOf (url : String) : String :=
  let n := urlparseNetloc url
  if n = "" then url else n

/-! ### Extraction pass (`legacy_streamlit_app.py:374` handler)

For one report: the scanned text is `message_content + "\n" + ocr_preview`
(absent fields as empty); the set of already-recorded URLs is loaded once
— with no filter on `deleted` — and is not updated while the pass runs;
each candidate already in that set is skipped, every other candidate is
inserted (once per occurrence). -/

/-- Inner candidate loop: returns the inserted rows in insertion order and
the `(inserted, skipped)` counters. -/
def extractLoop (rid : Nat) (existingUrls : List String) (now : Int) :
    List String → List Link × Nat × Nat
  | [] => ([], 0, 0)
  | url :: rest =>
    if existingUrls.contains url then
      let (ls, i, s) := extractLoop rid existingUrls now rest
      (ls, i, s + 1)
    else
      let (ls, i, s) := extractLoop rid existingUrls now rest
      ({ report_id := rid
         url := url
         domain := domainOf url
         safety := none
         created_on := now
         updated_on := now
         deleted := false } :: ls, i + 1, s)

/-- The extraction pass for a single report: the report's link rows after
the pass, with the `(inserted, skipped)` counters of this pass.
`existing` is the report's current `report_links` rows. -/
def runExtractionOnReport (rid : Nat)
    (message_content ocr_preview : Option String) (existing : List Link)
    (now : Int) : List Link × Nat × Nat :=
  let text := message_content.getD "" ++ "\n" ++ ocr_preview.getD ""
  let urls := extract_urls text
  if urls.isEmpty then (existing, 0, 0)
  else
    let existingUrls := existing.map (fun l => l.url)
    let (newLinks, i, s) := extractLoop rid existingUrls now urls
    (existing ++ newLinks, i, s)

/-! ## Timestamp normalizer (`convert_local_to_utc` /
`convert_utc_to_local`, `legacy_streamlit_app.py:74` and `:90`)

An aware datetime is an absolute instant plus a UTC offset; its wall clock
is `instant + offset`. Naive datetimes are bare wall-clock values. The
code path modelled is the `ZoneInfo` one (`zoneinfo` imports successfully
on the supported interpreters). -/

/-- Aware datetime: absolute instant (seconds since epoch) and the UTC
offset (seconds) of the zone it is expressed in. -/
structure AwareDT where
  instant : Int
  offset : Int
deriving DecidableEq, Repr

/-- The wall-clock reading of an aware datetime, to the second. -/
def wallClock (d : AwareDT) : Int :=
  d.instant + d.offset

/-- Modelled from the spec: the timezone-database collaborator (§6). A
zone resolves a UTC offset for an absolute instant (`ZoneInfo` attached to
an aware datetime) and for a naive local reading (`ZoneInfo` attached via
`replace(tzinfo=...)`, PEP 495 `fold=0` resolution: ambiguous local times
take the pre-transition offset, and a time in a spring-forward gap is
resolved with the offset in force before the gap). -/
structure Zone where
  offsetAt : Int → Int
  offsetFromLocal : Int → Int

/-- Model of `datetime.astimezone(zone)`: same instant, the target zone's offset there. -/
def astimezone (d : AwareDT) (z : Zone) : AwareDT :=
  { instant := d.instant, offset := z.offsetAt d.instant }

/-- Model of `naive.replace(tzinfo=zone)` followed by `.astimezone(UTC)`: resolve
the naive wall clock against the zone (fold=0) to get the instant. -/
def localizeToUtc (naive : Int) (z : Zone) : AwareDT :=
  { instant := naive - z.offsetFromLocal naive, offset := 0 }

/-- Model of `ZoneInfo(name)`: `some` zone for a known name, `none` meaning the
constructor raises. -/
def TzDb := String → Option Zone

/-- Embedding of `convert_local_to_utc` (`legacy_streamlit_app.py:74`): `None` timezone
names and resolution failures both fall back to reading the naive value
as already UTC; otherwise resolve via the zone and convert to UTC. -/
def convert_local_to_utc (db : TzDb) (naive_dt : Int)
    (tz_name : Option String) : AwareDT :=
  match tz_name with
  | none => { instant := naive_dt, offset := 0 }
  | some name =>
    match db name with
    | some z => localizeToUtc naive_dt z
    | none => { instant := naive_dt, offset := 0 }

/-- Embedding of `convert_utc_to_local` (`legacy_streamlit_app.py:90`): `None` input
stays `None`; with a truthy timezone name, convert to that zone, returning
the input unchanged if the zone constructor raises. With a falsy timezone
name (`None` or `""`) the function body falls through its `if` with no
`else` and returns Python `None`. -/
def convert_utc_to_local (db : TzDb) (utc_dt : Option AwareDT)
    (tz_name : Option String) : Option AwareDT :=
  match utc_dt with
  | none => none
  | some d =>
    match tz_name with
    | some name =>
      if name = "" then none
      else
        match db name with
        | some z => some (astimezone d z)
        | none => some d
    | none => none

/-! ### A concrete zone: America/New_York in 2025

Epoch arithmetic via the standard civil-calendar conversion, and the IANA
2025 rule for the zone: EDT (UTC-4) between 2025-03-09 07:00 UTC and
2025-11-02 06:00 UTC, EST (UTC-5) otherwise. -/

/-- Days from the epoch 1970-01-01 for a civil date (proleptic Gregorian,
valid for the years used here). -/
def daysFromCivil (y m d : Nat) : Int :=
  let y' := if m ≤ 2 then y - 1 else y
  let era := y' / 400
  let yoe := y' % 400
  let mp := (m + 9) % 12
  let doy := (153 * mp + 2) / 5 + d - 1
  let doe := yoe * 365 + yoe / 4 - yoe / 100 + doy
  (era * 146097 + doe : Int) - 719468

/-- Seconds since the epoch of a civil date-time read as UTC (equally: the
naive wall-clock encoding of a local date-time). -/
def civilToSecs (y m d h mi s : Nat) : Int :=
  daysFromCivil y m d * 86400 + (3600 * h + 60 * mi + s : Nat)

/-- EST offset, seconds. -/
def nyStd : Int := -18000

/-- EDT offset, seconds. -/
def nyDst : Int := -14400

/-- 2025-03-09 07:00 UTC: the 2025 spring-forward instant. -/
def nyDstStart2025 : Int := civilToSecs 2025 3 9 7 0 0

/-- 2025-11-02 06:00 UTC: the 2025 fall-back instant. -/
def nyDstEnd2025 : Int := civilToSecs 2025 11 2 6 0 0

/-- Modelled from the spec: the `America/New_York` zone under its 2025
IANA rules. By instant: EDT inside the DST window, EST outside. By naive
local reading with fold=0: EDT for wall clocks from 03:00 on the
spring-forward day up to 02:00 (exclusive) on the fall-back day — gap
times resolve with the pre-gap EST offset, ambiguous fall-back times with
the pre-transition EDT offset. -/
def nyZone2025 : Zone :=
  { offsetAt := fun t =>
      if nyDstStart2025 ≤ t ∧ t < nyDstEnd2025 then nyDst else nyStd
    offsetFromLocal := fun n =>
      if nyDstStart2025 + nyDst ≤ n ∧ n < nyDstEnd2025 + nyStd then nyDst
      else nyStd }

/-- Modelled from the spec: the timezone database with the two zone names
the claims exercise; every other name raises in `ZoneInfo`. -/
def tzdb : TzDb := fun name =>
  if name = "America/New_York" then some nyZone2025
  else if name = "UTC" then some { offsetAt := fun _ => 0,
                                   offsetFromLocal := fun _ => 0 }
  else none

/-! ## Theorems -/

/-- The `created_on`-descending comparator is transitive. -/
lemma createdDesc_trans (a b c : Report) (h1 : createdDesc a b = true)
    (h2 : createdDesc b c = true) : createdDesc a c = true := by
  simp only [createdDesc, decide_eq_true_eq] at *
  omega

/-- The `created_on`-descending comparator is total. -/
lemma createdDesc_total (a b : Report) :
    (createdDesc a b || createdDesc b a) = true := by
  simp only [createdDesc, Bool.or_eq_true, decide_eq_true_eq]
  omega

/-- Members of the public search result are matching rows of the table. -/
lemma mem_search_page {db : List Report} {q t : Option String} {r : Report}
    (h : r ∈ search_page db q t) : r ∈ db ∧ publicPred q t r = true := by
  have h1 : r ∈ (db.filter (publicPred q t)).mergeSort createdDesc :=
    List.take_subset _ _ h
  rw [List.mem_mergeSort] at h1
  exact List.mem_filter.mp h1

/-- C2. A flagged report appears in no public search result, whichever
text and type filters are supplied; and public attachment retrieval
refuses (redirects away from) any attachment whose parent report is
flagged or deleted. -/
theorem c2_flagged_never_public :
    (∀ (db : List Report) (q t : Option String) (r : Report),
        r.is_flagged = true → r ∉ search_page db q t) ∧
    (∀ (rdb : List Report) (adb : List Attachment) (aid : Nat)
        (att : Attachment) (rep : Report),
        adb.find? (fun a => a.id == aid) = some att →
        rdb.find? (fun r => r.id == att.report_id) = some rep →
        rep.is_flagged = true ∨ rep.deleted = true →
        download_attachment rdb adb aid = .redirect "/" 303) := by
  constructor
  · intro db q t r hflag hmem
    have h2 := (mem_search_page hmem).2
    simp only [publicPred, Bool.and_eq_true, Bool.not_eq_true'] at h2
    exact absurd hflag (by simp [h2.1.1.2])
  · intro rdb adb aid att rep h1 h2 h3
    unfold download_attachment
    rw [h1]
    by_cases hd : att.deleted
    · simp [hd]
    · simp only [hd, if_false, Bool.false_eq_true]
      rw [h2]
      rcases h3 with h | h <;> simp [h]

/-- A concrete flagged report, used to instantiate C2. -/
def flaggedReport : Report :=
  { mkReport 1 "sms" "hello" 10 with is_flagged := true }

/-- A concrete attachment of `flaggedReport`, used to instantiate C2. -/
def flaggedAttachment : Attachment :=
  { id := 4, report_id := 1, original_name := "a.png",
    storage_path := "uploads/a", mime_type := none, size_bytes := 3,
    created_on := 10, deleted := false }

/-- Witness for C2 at a concrete table: a flagged report is absent from
the unfiltered public search over the one-row table, and downloading its
attachment redirects home. -/
theorem c2_flagged_never_public_witness :
    flaggedReport ∉ search_page [flaggedReport] none none ∧
    download_attachment [flaggedReport] [flaggedAttachment] 4
      = .redirect "/" 303 := by
  constructor
  · exact c2_flagged_never_public.1 _ none none _ rfl
  · exact c2_flagged_never_public.2 [flaggedReport] [flaggedAttachment] 4
      flaggedAttachment flaggedReport (by decide) (by decide) (Or.inl rfl)

/-- An element of a list lies in the 25-row page slice that its index
selects. -/
lemma mem_page_slice {α : Type} (l : List α) (i : Nat) (h : i < l.length) :
    l[i] ∈ (l.drop (i / 25 * 25)).take 25 := by
  have hj : i % 25 < 25 := Nat.mod_lt _ (by omega)
  have hlen : i % 25 < ((l.drop (i / 25 * 25)).take 25).length := by
    simp only [List.length_take, List.length_drop]
    omega
  have heq : ((l.drop (i / 25 * 25)).take 25)[i % 25] = l[i] := by
    rw [List.getElem_take, List.getElem_drop]
    congr 1
    omega
  rw [← heq]
  exact List.getElem_mem hlen

/-- C7. Characterization of the query/filter engine. The public search
result contains only rows of the table satisfying the public predicate
(not deleted, not flagged, optional type and text conditions); when at
most 200 rows match it contains exactly those rows; it is ordered by
creation time descending and holds at most 200 rows. The admin listing
reports as `total` the exact number of rows matching its filters, derives
`total_pages` from it with page size 25, serves pages of at most 25 rows
drawn from the matching rows, and every matching row appears on some page
numbered between 1 and `total_pages`. -/
theorem c7_query_engine (db : List Report) (q t : Option String)
    (status : String) (sd : Nat) (q' : String) :
    (∀ r ∈ search_page db q t, r ∈ db ∧ publicPred q t r = true) ∧
    ((db.filter (publicPred q t)).length ≤ 200 →
      ∀ r, r ∈ search_page db q t ↔ r ∈ db ∧ publicPred q t r = true) ∧
    (search_page db q t).Pairwise
      (fun a b => b.created_on ≤ a.created_on) ∧
    (search_page db q t).length ≤ 200 ∧
    (∀ page : Int,
      (admin_page db status sd q' page).total
          = (db.filter (adminPred status sd q')).length ∧
      (admin_page db status sd q' page).total_pages
          = max (((admin_page db status sd q' page).total + 24) / 25) 1 ∧
      (admin_page db status sd q' page).rows.length ≤ 25 ∧
      ∀ r ∈ (admin_page db status sd q' page).rows,
        r ∈ db ∧ adminPred status sd q' r = true) ∧
    (∀ r ∈ db, adminPred status sd q' r = true →
      ∃ pg : Nat, 1 ≤ pg ∧
        pg ≤ (admin_page db status sd q' 1).total_pages ∧
        r ∈ (admin_page db status sd q' (pg : Int)).rows) := by
  refine ⟨fun r h => mem_search_page h, ?_, ?_, ?_, ?_, ?_⟩
  · intro hlen r
    refine ⟨fun h => mem_search_page h, fun ⟨h1, h2⟩ => ?_⟩
    unfold search_page
    rw [List.take_of_length_le (by rw [List.length_mergeSort]; exact hlen),
      List.mem_mergeSort]
    exact List.mem_filter.mpr ⟨h1, h2⟩
  · exact List.Pairwise.sublist (List.take_sublist _ _)
      (by
        have := List.sorted_mergeSort createdDesc_trans createdDesc_total
          (db.filter (publicPred q t))
        exact this.imp (fun h => by
          simpa [createdDesc, decide_eq_true_eq] using h))
  · unfold search_page
    simp [List.length_take]
  · intro page
    refine ⟨rfl, rfl, ?_, ?_⟩
    · unfold admin_page
      simp [List.length_take]
    · intro r hr
      have h1 : r ∈ ((db.filter
          (adminPred status sd q')).mergeSort createdDesc) := by
        have := List.take_subset 25 _ hr
        exact List.drop_subset _ _ this
      rw [List.mem_mergeSort] at h1
      exact List.mem_filter.mp h1
  · intro r hr hp
    have hmem : r ∈ (db.filter (adminPred status sd q')).mergeSort
        createdDesc := by
      rw [List.mem_mergeSort]
      exact List.mem_filter.mpr ⟨hr, hp⟩
    obtain ⟨i, hi, hgi⟩ := List.mem_iff_getElem.mp hmem
    refine ⟨i / 25 + 1, by omega, ?_, ?_⟩
    · show i / 25 + 1 ≤
        max (((db.filter (adminPred status sd q')).length + 24) / 25) 1
      rw [List.length_mergeSort] at hi
      omega
    · show r ∈ (((db.filter (adminPred status sd q')).mergeSort
          createdDesc).drop
            (((max ((i / 25 + 1 : Nat) : Int) 1).toNat - 1) * 25)).take 25
      have hmax : (max ((i / 25 + 1 : Nat) : Int) 1).toNat - 1
          = i / 25 := by omega
      rw [hmax, ← hgi]
      exact mem_page_slice _ i hi

/-- Witness for C7: on a one-row table the exactness direction puts the
row into the public result, and the pagination existence puts it on an
admin page. -/
theorem c7_query_engine_witness :
    mkReport 1 "sms" "hi" 10 ∈ search_page [mkReport 1 "sms" "hi" 10]
      none none ∧
    ∃ pg : Nat, 1 ≤ pg ∧
      pg ≤ (admin_page [mkReport 1 "sms" "hi" 10] "all" 0 "" 1).total_pages
        ∧ mkReport 1 "sms" "hi" 10
          ∈ (admin_page [mkReport 1 "sms" "hi" 10] "all" 0 "" (pg : Int)).rows := by
  constructor
  · exact ((c7_query_engine [mkReport 1 "sms" "hi" 10] none none "all" 0
      "").2.1 (by decide) _).mpr ⟨by decide, by decide⟩
  · exact (c7_query_engine [mkReport 1 "sms" "hi" 10] none none "all" 0
      "").2.2.2.2.2 _ (by decide) (by decide)

/-- Handler `admin_action` never writes to the audit table, whatever the action
string is. -/
lemma admin_action_audit_unchanged (st : ModState) (rid : Nat)
    (action reason user : String) (now : Int) :
    (admin_action st rid action reason user now).1.audit = st.audit := by
  unfold admin_action
  cases dbGetReport st.reports rid with
  | none => rfl
  | some report =>
    by_cases hd : report.deleted
    · simp [hd]
    · simp only [hd, Bool.false_eq_true, if_false]
      by_cases h1 : action = "flag"
      · simp [h1]
      · by_cases h2 : action = "unflag"
        · simp [h1, h2]
        · by_cases h3 : action = "delete"
          · simp [h1, h2, h3]
          · simp [h1, h2, h3]

/-- C1, counterexample. Flagging an existing, unflagged, non-deleted
report through `admin_action` completes (the report's fields change:
`is_flagged` becomes true) while the audit table stays empty — not the
claimed exactly-one matching audit entry written with the field update. -/
theorem c1_counterexample :
    ((admin_action ⟨[mkReport 1 "sms" "hi" 10], []⟩ 1 "flag" "" "admin"
        100).1.reports.find? (fun r => r.id == 1)).map
          (fun r => r.is_flagged) = some true ∧
    (admin_action ⟨[mkReport 1 "sms" "hi" 10], []⟩ 1 "flag" "" "admin"
        100).1.audit = [] := by
  decide

/-- C1, amended. A completed `flag`/`unflag`/`delete` in `admin_action`
updates the report's fields but writes no audit entry (the FastAPI app
has no audit table at all); audit entries come only from the legacy audit
handler, which appends exactly one entry whose action and performer match
the submitted form whenever the chosen action is not `"none"`. -/
theorem c1_amended :
    (∀ (st : ModState) (rid : Nat) (action reason user : String)
        (now : Int),
        (admin_action st rid action reason user now).1.audit = st.audit) ∧
    (∀ (st : ModState) (rid : Nat) (pb : Option Nat)
        (action comment : String) (now : Int), action ≠ "none" →
        (legacy_audit_submit st rid pb action comment now).audit
          = st.audit ++
            [{ report_id := rid, performed_by := pb, action := action,
               comment := comment, created_on := now, deleted := false }]) := by
  refine ⟨admin_action_audit_unchanged, ?_⟩
  intro st rid pb action comment now hne
  unfold legacy_audit_submit
  rw [if_neg hne]
  by_cases hdel : action = "delete"
  · simp [hdel]
  · simp [hdel]

/-- Witness for C1 (amended): a concrete flag through `admin_action`
leaves the audit table empty, and a concrete legacy `triage` submission
appends exactly its one audit entry. -/
theorem c1_amended_witness :
    (admin_action ⟨[mkReport 1 "sms" "hi" 10], []⟩ 1 "flag" "" "admin"
        100).1.audit = [] ∧
    (legacy_audit_submit ⟨[mkReport 1 "sms" "hi" 10], []⟩ 1 (some 2)
        "triage" "checked" 100).audit
      = [{ report_id := 1, performed_by := some 2, action := "triage",
           comment := "checked", created_on := 100, deleted := false }] := by
  constructor
  · exact c1_amended.1 ⟨[mkReport 1 "sms" "hi" 10], []⟩ 1 "flag" "" "admin"
      100
  · exact c1_amended.2 ⟨[mkReport 1 "sms" "hi" 10], []⟩ 1 (some 2) "triage"
      "checked" 100 (by decide)

/-- C6, counterexample. Through the legacy audit handler, a second delete
of the same report is not a no-op: starting from a report first deleted
at time 50, running the delete action again at time 100 overwrites
`deleted_on` with 100 (the legacy `UPDATE` has no guard on the current
`deleted` state) and appends a second audit entry. -/
theorem c6_counterexample :
    (((legacy_audit_submit
          (legacy_audit_submit ⟨[mkReport 1 "sms" "hi" 10], []⟩ 1 none
            "delete" "" 50)
          1 none "delete" "" 100).reports.find?
        (fun r => r.id == 1)).map (fun r => r.deleted_on))
        = some (some 100) ∧
    (some (some 100) : Option (Option Int)) ≠ some (some 50) ∧
    (legacy_audit_submit
        (legacy_audit_submit ⟨[mkReport 1 "sms" "hi" 10], []⟩ 1 none
          "delete" "" 50)
        1 none "delete" "" 100).audit.length = 2 := by
  decide

/-- C6, amended. In `admin_action`, any transition attempted on a report
that does not exist or is already deleted is a silent no-op: the state is
returned unchanged with the same `/admin` redirect every path of the
handler produces, so in particular a second delete through `admin_action`
leaves `deleted_on` at the first call's value. The legacy audit-form
delete, by contrast, when invoked on an already-deleted report id,
appends a fresh audit entry and overwrites that report's `deleted_on`
with the new timestamp. -/
theorem c6_amended :
    (∀ (st : ModState) (rid : Nat) (action reason user : String)
        (now : Int),
        (∀ r, dbGetReport st.reports rid = some r → r.deleted = true) →
        admin_action st rid action reason user now
          = (st, .redirect "/admin" 303)) ∧
    (∀ (st : ModState) (rid : Nat) (action reason user : String)
        (now : Int),
        (admin_action st rid action reason user now).2
          = .redirect "/admin" 303) ∧
    (∀ (st : ModState) (rid : Nat) (pb : Option Nat) (comment : String)
        (now : Int) (r : Report),
        r ∈ (legacy_audit_submit st rid pb "delete" comment now).reports →
        r.id = rid → r.deleted = true ∧ r.deleted_on = some now) ∧
    (∀ (st : ModState) (rid : Nat) (pb : Option Nat) (comment : String)
        (now : Int),
        (legacy_audit_submit st rid pb "delete" comment now).audit.length
          = st.audit.length + 1) := by
  refine ⟨?_, ?_, ?_, ?_⟩
  · intro st rid action reason user now hdel
    unfold admin_action
    cases hfind : dbGetReport st.reports rid with
    | none => rfl
    | some report => simp [hdel report hfind]
  · intro st rid action reason user now
    unfold admin_action
    cases dbGetReport st.reports rid with
    | none => rfl
    | some report =>
      by_cases hd : report.deleted
      · simp [hd]
      · simp only [hd, Bool.false_eq_true, if_false]
        by_cases h1 : action = "flag"
        · simp [h1]
        · by_cases h2 : action = "unflag"
          · simp [h1, h2]
          · by_cases h3 : action = "delete"
            · simp [h1, h2, h3]
            · simp [h1, h2, h3]
  · intro st rid pb comment now r hr hid
    unfold legacy_audit_submit at hr
    rw [if_neg (by decide), if_pos rfl] at hr
    simp only [List.mem_map] at hr
    obtain ⟨x, _, hx⟩ := hr
    by_cases hxid : (x.id == rid) = true
    · rw [if_pos hxid] at hx
      subst hx
      exact ⟨rfl, rfl⟩
    · rw [if_neg hxid] at hx
      subst hx
      exact absurd (beq_iff_eq.mpr hid) hxid
  · intro st rid pb comment now
    unfold legacy_audit_submit
    rw [if_neg (by decide), if_pos rfl]
    simp

/-- The concrete already-deleted report used to instantiate C6. -/
def deletedReport : Report :=
  { mkReport 1 "sms" "hi" 10 with deleted := true, deleted_on := some 50 }

/-- The moderation state holding only `deletedReport`. -/
def deletedState : ModState :=
  { reports := [deletedReport], audit := [] }

/-- Witness for C6 (amended): deleting the already-deleted report 1 (and
flagging the missing report 2) through `admin_action` changes nothing and
returns the success redirect; the legacy delete on the deleted report 1
leaves a report marked deleted at the new time 100 and grows the audit
table. -/
theorem c6_amended_witness :
    admin_action deletedState 1 "delete" "" "admin" 100
      = (deletedState, .redirect "/admin" 303) ∧
    admin_action deletedState 2 "flag" "" "admin" 100
      = (deletedState, .redirect "/admin" 303) ∧
    (∀ r ∈ (legacy_audit_submit deletedState 1 none "delete" ""
        100).reports, r.id = 1 → r.deleted = true ∧
          r.deleted_on = some 100) ∧
    (legacy_audit_submit deletedState 1 none "delete" "" 100).audit.length
      = 0 + 1 := by
  refine ⟨?_, ?_, ?_, ?_⟩
  · exact c6_amended.1 deletedState 1 "delete" "" "admin" 100 (by decide)
  · exact c6_amended.1 deletedState 2 "flag" "" "admin" 100 (by decide)
  · exact fun r hr => c6_amended.2.2.1 deletedState 1 none "" 100 r hr
  · exact c6_amended.2.2.2 deletedState 1 none "" 100

/-- The link row the extraction pass inserts for a fresh candidate. -/
def mkLinkRow (rid : Nat) (u : String) (now : Int) : Link :=
  { report_id := rid, url := u, domain := domainOf u, safety := none,
    created_on := now, updated_on := now, deleted := false }

/-- Characterization of the candidate loop: the inserted rows are exactly
the candidates (once per occurrence, in order) whose URL is not among the
pre-loaded URL set, the inserted counter counts them, and the skipped
counter counts the occurrences whose URL is pre-loaded. -/
lemma extractLoop_spec (rid : Nat) (exu : List String) (now : Int)
    (urls : List String) :
    (extractLoop rid exu now urls).1
        = (urls.filter (fun u => !exu.contains u)).map
            (fun u => mkLinkRow rid u now) ∧
    (extractLoop rid exu now urls).2.1
        = (urls.filter (fun u => !exu.contains u)).length ∧
    (extractLoop rid exu now urls).2.2
        = (urls.filter (fun u => exu.contains u)).length := by
  induction urls with
  | nil => exact ⟨rfl, rfl, rfl⟩
  | cons u rest ih =>
    obtain ⟨ih1, ih2, ih3⟩ := ih
    by_cases h : u ∈ exu
    · simp [extractLoop, h, ih1, ih2, ih3]
    · simp [extractLoop, mkLinkRow, h, ih1, ih2, ih3]

/-- Characterization of the whole single-report extraction pass in terms
of the scanned candidates and the pre-existing rows. -/
lemma runExtraction_spec (rid : Nat) (mc ocr : Option String)
    (existing : List Link) (now : Int) :
    (runExtractionOnReport rid mc ocr existing now).1
        = existing ++
          ((extract_urls (mc.getD "" ++ "\n" ++ ocr.getD "")).filter
            (fun u => !(existing.map (fun l => l.url)).contains u)).map
              (fun u => mkLinkRow rid u now) ∧
    (runExtractionOnReport rid mc ocr existing now).2.1
        = ((extract_urls (mc.getD "" ++ "\n" ++ ocr.getD "")).filter
            (fun u => !(existing.map (fun l => l.url)).contains u)).length ∧
    (runExtractionOnReport rid mc ocr existing now).2.2
        = ((extract_urls (mc.getD "" ++ "\n" ++ ocr.getD "")).filter
            (fun u => (existing.map (fun l => l.url)).contains u)).length := by
  unfold runExtractionOnReport
  by_cases h : (extract_urls (mc.getD "" ++ "\n" ++ ocr.getD "")).isEmpty
  · rw [List.isEmpty_iff] at h
    simp [h]
  · have hspec := extractLoop_spec rid (existing.map (fun l => l.url)) now
      (extract_urls (mc.getD "" ++ "\n" ++ ocr.getD ""))
    simp only [h, Bool.false_eq_true, if_false]
    exact ⟨by rw [hspec.1], hspec.2.1, hspec.2.2⟩

/-- C3, counterexample. Two failures of the uniqueness invariant on
concrete inputs. First, on a report whose text contains the same URL
token twice and with no previously recorded links, one extraction pass
inserts two non-deleted link rows with the same URL (the pre-loaded URL
set is not updated while the pass runs). Second, a candidate whose URL is
recorded only among the report's *deleted* links is nevertheless skipped
(the pre-load has no `deleted` filter), so skipping is not governed by
the non-deleted links alone. -/
theorem c3_counterexample :
    ¬ (((runExtractionOnReport 1
          (some "dup http://a.bc/x http://a.bc/x") none [] 10).1.filter
            (fun l => !l.deleted)).map (fun l => l.url)).Nodup ∧
    (runExtractionOnReport 1 (some "see http://a.bc/x end") none
        [{ report_id := 1, url := "http://a.bc/x", domain := "a.bc",
           safety := none, created_on := 5, updated_on := 5,
           deleted := true }] 10).2.2 = 1 ∧
    (runExtractionOnReport 1 (some "see http://a.bc/x end") none
        [{ report_id := 1, url := "http://a.bc/x", domain := "a.bc",
           safety := none, created_on := 5, updated_on := 5,
           deleted := true }] 10).2.1 = 0 := by
  refine ⟨?_, by decide, by decide⟩
  decide

/-- C3, amended. After one extraction pass, a candidate occurrence was
skipped exactly when its URL already appeared among the report's
previously recorded links *whether deleted or not*, and every other
occurrence was inserted — once per occurrence, so a URL token repeated in
the scanned text of a single pass produces duplicate rows, and a URL
recorded only among deleted links is not re-inserted. -/
theorem c3_amended (rid : Nat) (mc ocr : Option String)
    (existing : List Link) (now : Int) :
    (runExtractionOnReport rid mc ocr existing now).1.map (fun l => l.url)
        = existing.map (fun l => l.url) ++
          (extract_urls (mc.getD "" ++ "\n" ++ ocr.getD "")).filter
            (fun u => !(existing.map (fun l => l.url)).contains u) ∧
    (runExtractionOnReport rid mc ocr existing now).2.1
        = ((extract_urls (mc.getD "" ++ "\n" ++ ocr.getD "")).filter
            (fun u => !(existing.map (fun l => l.url)).contains u)).length ∧
    (runExtractionOnReport rid mc ocr existing now).2.2
        = ((extract_urls (mc.getD "" ++ "\n" ++ ocr.getD "")).filter
            (fun u => (existing.map (fun l => l.url)).contains u)).length := by
  have hspec := runExtraction_spec rid mc ocr existing now
  refine ⟨?_, hspec.2.1, hspec.2.2⟩
  rw [hspec.1, List.map_append, List.map_map,
    show ((fun (l : Link) => l.url) ∘ fun u => mkLinkRow rid u now)
        = fun u => u from rfl,
    List.map_id']

/-- The two complementary filters of a list split its length. -/
lemma length_filter_split {α : Type} (p : α → Bool) (l : List α) :
    (l.filter (fun a => !p a)).length + (l.filter p).length = l.length := by
  induction l with
  | nil => rfl
  | cons a rest ih =>
    by_cases h : p a = true
    · simp [h, ← ih]
      omega
    · rw [Bool.not_eq_true] at h
      simp [h, ← ih]
      omega

/-- After one pass, every scanned candidate URL is recorded for the
report. -/
lemma mem_after_pass (rid : Nat) (mc ocr : Option String)
    (existing : List Link) (t : Int) (u : String)
    (hu : u ∈ extract_urls (mc.getD "" ++ "\n" ++ ocr.getD "")) :
    u ∈ (runExtractionOnReport rid mc ocr existing t).1.map
      (fun l => l.url) := by
  rw [(runExtraction_spec rid mc ocr existing t).1, List.map_append,
    List.map_map]
  by_cases h : u ∈ existing.map (fun l => l.url)
  · exact List.mem_append_left _ h
  · refine List.mem_append_right _ ?_
    rw [show ((fun (l : Link) => l.url) ∘ fun v => mkLinkRow rid v t)
        = fun v => v from rfl, List.map_id']
    exact List.mem_filter.mpr ⟨hu, by simp [h]⟩

/-- C4. Link extraction is idempotent: a second pass over unchanged text
inserts nothing (and adds no rows), and its skipped counter equals the
number of candidates the scan finds — which is also the sum of the first
pass's inserted and skipped counters, the links "found" by the first
call. -/
theorem c4_extraction_idempotent (rid : Nat) (mc ocr : Option String)
    (existing : List Link) (t1 t2 : Int) :
    (runExtractionOnReport rid mc ocr
        (runExtractionOnReport rid mc ocr existing t1).1 t2).2.1 = 0 ∧
    (runExtractionOnReport rid mc ocr
        (runExtractionOnReport rid mc ocr existing t1).1 t2).1
      = (runExtractionOnReport rid mc ocr existing t1).1 ∧
    (runExtractionOnReport rid mc ocr
        (runExtractionOnReport rid mc ocr existing t1).1 t2).2.2
      = (extract_urls (mc.getD "" ++ "\n" ++ ocr.getD "")).length ∧
    (runExtractionOnReport rid mc ocr existing t1).2.1
        + (runExtractionOnReport rid mc ocr existing t1).2.2
      = (extract_urls (mc.getD "" ++ "\n" ++ ocr.getD "")).length := by
  have hspec2 := runExtraction_spec rid mc ocr
    (runExtractionOnReport rid mc ocr existing t1).1 t2
  have hall : ∀ u ∈ extract_urls (mc.getD "" ++ "\n" ++ ocr.getD ""),
      u ∈ (runExtractionOnReport rid mc ocr existing t1).1.map
        (fun l => l.url) :=
    fun u hu => mem_after_pass rid mc ocr existing t1 u hu
  have hnil : (extract_urls (mc.getD "" ++ "\n" ++ ocr.getD "")).filter
      (fun u => !((runExtractionOnReport rid mc ocr
        existing t1).1.map (fun l => l.url)).contains u) = [] := by
    rw [List.filter_eq_nil_iff]
    intro u hu
    simp [hall u hu]
  have hfull : (extract_urls (mc.getD "" ++ "\n" ++ ocr.getD "")).filter
      (fun u => ((runExtractionOnReport rid mc ocr
        existing t1).1.map (fun l => l.url)).contains u)
      = extract_urls (mc.getD "" ++ "\n" ++ ocr.getD "") := by
    rw [List.filter_eq_self]
    intro u hu
    simp [hall u hu]
  refine ⟨?_, ?_, ?_, ?_⟩
  · rw [hspec2.2.1, hnil]
    rfl
  · rw [hspec2.1, hnil]
    simp
  · rw [hspec2.2.2, hfull]
  · have hspec1 := runExtraction_spec rid mc ocr existing t1
    rw [hspec1.2.1, hspec1.2.2]
    exact length_filter_split _ _

/-- The message text of the specification's link-extraction scenario. -/
def scenarioText : String := "Win now http://bit.ly/x and www.scam.test/y"

/-- C5, counterexample. On the scenario report, the pass does insert
exactly two links, but the second stored domain is the raw token
`"www.scam.test/y"`, not the claimed `"www.scam.test"`: `urlparse` only
yields a host for tokens carrying a scheme, so a scheme-less token falls
back to the raw string with its path still attached. -/
theorem c5_counterexample :
    (runExtractionOnReport 7 (some scenarioText) none [] 0).1.map
        (fun l => l.domain) = ["bit.ly", "www.scam.test/y"] ∧
    (["bit.ly", "www.scam.test/y"] : List String)
      ≠ ["bit.ly", "www.scam.test"] := by
  constructor
  · decide
  · decide

/-- C5, amended. On the scenario report, link extraction inserts exactly
2 links with URLs `http://bit.ly/x` and `www.scam.test/y` and derived
domains `bit.ly` and `www.scam.test/y` (host portion when the token
carries a scheme, else the raw token, path included); a re-run inserts 0
and skips 2. -/
theorem c5_scenario_amended :
    (runExtractionOnReport 7 (some scenarioText) none [] 0).1.map
        (fun l => (l.url, l.domain))
      = [("http://bit.ly/x", "bit.ly"),
         ("www.scam.test/y", "www.scam.test/y")] ∧
    (runExtractionOnReport 7 (some scenarioText) none [] 0).2.1 = 2 ∧
    (runExtractionOnReport 7 (some scenarioText) none [] 0).2.2 = 0 ∧
    (runExtractionOnReport 7 (some scenarioText) none
        (runExtractionOnReport 7 (some scenarioText) none [] 0).1 1).2.1
      = 0 ∧
    (runExtractionOnReport 7 (some scenarioText) none
        (runExtractionOnReport 7 (some scenarioText) none [] 0).1 1).2.2
      = 2 ∧
    (runExtractionOnReport 7 (some scenarioText) none
        (runExtractionOnReport 7 (some scenarioText) none [] 0).1 1).1
      = (runExtractionOnReport 7 (some scenarioText) none [] 0).1 := by
  refine ⟨by decide, by decide, by decide, by decide, by decide, by decide⟩

/-- C8. `convert_utc_to_local` with a set instant but a missing (`None`)
or empty timezone name returns Python `None` — its body falls through the
`if tz_name:` with no `else` — instead of the claimed (and docstring's)
unmodified instant; a present-but-unresolvable name does return the
instant unmodified, and an unset instant stays unset. -/
theorem c8_missing_tz_drops_instant :
    convert_utc_to_local tzdb (some ⟨1750000000, 0⟩) none = none ∧
    convert_utc_to_local tzdb (some ⟨1750000000, 0⟩) (some "") = none ∧
    (none : Option AwareDT) ≠ some ⟨1750000000, 0⟩ ∧
    convert_utc_to_local tzdb (some ⟨1750000000, 0⟩) (some "Bad/Zone")
      = some ⟨1750000000, 0⟩ ∧
    convert_utc_to_local tzdb none (some "America/New_York") = none := by
  refine ⟨rfl, rfl, by decide, ?_, rfl⟩
  have h : tzdb "Bad/Zone" = none := rfl
  simp [convert_utc_to_local, h]

/-- C9. Round trip through the stored absolute instant: converting a
naive `America/New_York` wall-clock reading to UTC and back reproduces it
to the second, for every local reading outside the spring-forward gap
(02:00–03:00 on the transition day, wall clocks that do not exist in the
zone) — in particular on the DST-transition date itself and on
non-transition dates. -/
theorem c9_ny_roundtrip (n : Int)
    (h : n < nyDstStart2025 + nyStd ∨ nyDstStart2025 + nyDst ≤ n) :
    (convert_utc_to_local tzdb
        (some (convert_local_to_utc tzdb n (some "America/New_York")))
        (some "America/New_York")).map wallClock = some n := by
  have htz : tzdb "America/New_York" = some nyZone2025 := rfl
  have hS : nyDstStart2025 = 1741503600 := by decide
  have hE : nyDstEnd2025 = 1762063200 := by decide
  have hstd : nyStd = -18000 := rfl
  have hdst : nyDst = -14400 := rfl
  rw [hS, hstd, hdst] at h
  simp only [convert_local_to_utc, convert_utc_to_local, htz,
    localizeToUtc, astimezone, nyZone2025, hS, hE, hstd, hdst]
  rw [if_neg (by decide : ¬("America/New_York" = ""))]
  simp only [Option.map_some', wallClock, Option.some_inj]
  split_ifs <;> omega

/-- Witness for C9 at noon of the 2025 spring DST-transition date
(2025-03-09) and noon of a non-transition date (2025-06-15). -/
theorem c9_ny_roundtrip_witness :
    (convert_utc_to_local tzdb
        (some (convert_local_to_utc tzdb (civilToSecs 2025 3 9 12 0 0)
          (some "America/New_York")))
        (some "America/New_York")).map wallClock
      = some (civilToSecs 2025 3 9 12 0 0) ∧
    (convert_utc_to_local tzdb
        (some (convert_local_to_utc tzdb (civilToSecs 2025 6 15 12 0 0)
          (some "America/New_York")))
        (some "America/New_York")).map wallClock
      = some (civilToSecs 2025 6 15 12 0 0) :=
  ⟨c9_ny_roundtrip (civilToSecs 2025 3 9 12 0 0) (Or.inr (by decide)),
    c9_ny_roundtrip (civilToSecs 2025 6 15 12 0 0) (Or.inr (by decide))⟩

/-- C10. A submission whose `received_at` form field is non-empty but not
parseable as an ISO datetime (the parse raises, modelled by `parseIso`
returning `none`) still succeeds: exactly one report is inserted, the
handler redirects to `/` with 303, and the stored `received_at` is
absent. -/
theorem c10_unparseable_received_at (db : List Report) (nextId : Nat)
    (rt sf sub mc ra rn rc : String) (parseIso : String → Option Int)
    (now : Int) (hne : ra ≠ "") (hfail : parseIso ra = none) :
    ∃ r : Report,
      submit_report db nextId rt sf sub mc ra rn rc parseIso now
          = (db ++ [r], .redirect "/" 303) ∧ r.received_at = none := by
  refine ⟨_, rfl, ?_⟩
  simp only [submit_report]
  rw [if_neg hne, hfail]

/-- Witness for C10 with the unparseable string `"not-a-date"` and a
parse function rejecting everything. -/
theorem c10_unparseable_received_at_witness :
    ∃ r : Report,
      submit_report [] 1 "sms" "" "" "hello" "not-a-date" "" ""
          (fun _ => none) 50 = ([] ++ [r], .redirect "/" 303) ∧
        r.received_at = none :=
  c10_unparseable_received_at [] 1 "sms" "" "" "hello" "not-a-date" "" ""
    (fun _ => none) 50 (by decide) rfl
